import Mathlib

/-!
Verification of the scheduling core of `src/app.py` (Mac NPI Ramp Sequencer).

The embedding below translates the pure scheduling logic of `app.py`:
the feasibility columns added to `clean_df` (lines 121-123), the
`calculate_schedule` function (lines 135-194), and the metrics
(lines 200-207).  Container/display-only fields (`Duration_Min`, the
Gantt chart, the Streamlit state) carry no scheduling content and are
not modelled; `Duration_Min` is derivable as `(finish - start) / 60`.

Quantities, cycle times and material counts are integers in the source
(the data editor columns use integer steps with `min_value` 1, 1 and 0),
so they are modelled as `Nat`.  The `Priority` column is restricted by
the UI to the two strings `"Hot (VP Demo)"` and `"Standard"`
(app.py line 96/105).
-/

namespace MacNpi

/-- One row of the input table (a demand line).  All five columns are
`required=True` in the data editor and rows with a missing value are
dropped by `dropna` before scheduling, so every field is present. -/
structure DemandLine where
  modelName : String
  priority : String
  demandQty : Nat
  materialOnHand : Nat
  cycleTime : Nat
deriving DecidableEq, Repr

/-- A row of `clean_df` after the constraint logic (app.py lines 121-122)
has added the `Feasible Qty` and `Shortage` columns. -/
structure ResolvedLine where
  modelName : String
  priority : String
  demandQty : Nat
  materialOnHand : Nat
  cycleTime : Nat
  feasibleQty : Nat
  shortage : Nat
deriving DecidableEq, Repr

/-- Constraint logic, app.py lines 121-122:
`Feasible Qty = min(Demand Qty, Material On-Hand)`,
`Shortage = Demand Qty - Feasible Qty`.  The subtraction cannot go
negative because the minimum is bounded by the demand. -/
def resolveLine (d : DemandLine) : ResolvedLine :=
  { modelName := d.modelName
    priority := d.priority
    demandQty := d.demandQty
    materialOnHand := d.materialOnHand
    cycleTime := d.cycleTime
    feasibleQty := min d.demandQty d.materialOnHand
    shortage := d.demandQty - min d.demandQty d.materialOnHand }

/-- The whole constraint pass over the table. -/
def resolveAll (ds : List DemandLine) : List ResolvedLine :=
  ds.map resolveLine

/-- The `Type` column of a task dict in `calculate_schedule`. -/
inductive BlockType where
  | Production
  | Changeover
deriving DecidableEq, Repr

/-- One task dict appended to `tasks` in `calculate_schedule`
(app.py lines 168-176 and 182-191).  `priority` is `some` for
Production blocks (the dict carries a `Priority` key there) and `none`
for Changeover blocks (whose dict has no `Priority` key). -/
structure Task where
  label : String
  model : String
  startSec : Nat
  finishSec : Nat
  type : BlockType
  quantity : Nat
  priority : Option String
deriving DecidableEq, Repr

/-- The dict `priority_map` of app.py line 140, mapping the priority
string to its rank: 0 for `"Hot (VP Demo)"`, 1 for `"Standard"`.
The UI restricts `Priority` to exactly these two strings, so the map is
total on reachable inputs; any other string is sent to the Standard
rank here. -/
def priority_map (p : String) : Nat :=
  if p = "Hot (VP Demo)" then 0 else 1

/-- Helper for `firstUniq`: `seen` records the values already kept. -/
def firstUniqAux {α : Type} [DecidableEq α] (seen : List α) : List α → List α
  | [] => []
  | a :: l =>
    if a ∈ seen then firstUniqAux seen l
    else a :: firstUniqAux (a :: seen) l

/-- The `list(dict.fromkeys(...))` idiom of app.py line 144: the list of distinct
values in first-appearance order. -/
def firstUniq {α : Type} [DecidableEq α] (l : List α) : List α :=
  firstUniqAux [] l

/-- The grouping key of the optimized mode: the `groupby` on app.py
line 147 groups by `Priority`, `Priority_Rank`, `Model Name`,
`Model_Rank` and `Cycle Time (Sec)`; the two rank columns are functions
of `Priority` and `Model Name` respectively, so the effective key is
the triple (priority, model, cycle time). -/
def gkey (r : ResolvedLine) : String × String × Nat :=
  (r.priority, r.modelName, r.cycleTime)

/-- Lexicographic comparison of char lists by code point, the order
Python uses on `str` (and hence pandas on the string key columns). -/
def charListLt : List Char → List Char → Bool
  | [], [] => false
  | [], _ :: _ => true
  | _ :: _, [] => false
  | a :: as, b :: bs => a < b || (a = b && charListLt as bs)

/-- Strict "less than" on strings as Python compares them. -/
def strLt (a b : String) : Prop :=
  charListLt a.data b.data = true

instance : DecidableRel strLt := fun a b => by
  unfold strLt; infer_instance

/-- Ascending lexicographic order on the full `groupby` key tuple
(`Priority`, `Priority_Rank`, `Model Name`, `Model_Rank`,
`Cycle Time (Sec)`).  The rank components are functions of the string
components so they never decide a comparison, leaving the lexicographic
order on (priority, model, cycle). -/
def keyLe (a b : String × String × Nat) : Prop :=
  strLt a.1 b.1 ∨ (a.1 = b.1 ∧ (strLt a.2.1 b.2.1 ∨ (a.2.1 = b.2.1 ∧ a.2.2 ≤ b.2.2)))

instance : DecidableRel keyLe := fun a b => by
  unfold keyLe; infer_instance

/-- One row of the grouped/aggregated `process_df` of the optimized mode
(app.py lines 147-152): the five key columns plus the two summed
columns. -/
structure GroupRow where
  priority : String
  priorityRank : Nat
  modelName : String
  modelRank : Nat
  cycleTime : Nat
  feasibleQty : Nat
  demandQty : Nat
deriving DecidableEq, Repr

/-- The `sort_values(by=["Priority_Rank", "Model_Rank"])` order (app.py
line 152), as a lexicographic preorder on the two rank columns. -/
def rankLe (a b : GroupRow) : Prop :=
  a.priorityRank < b.priorityRank ∨
    (a.priorityRank = b.priorityRank ∧ a.modelRank ≤ b.modelRank)

instance : DecidableRel rankLe := fun a b => by
  unfold rankLe; infer_instance

instance : IsTotal GroupRow rankLe :=
  ⟨fun a b => by unfold rankLe; omega⟩

instance : IsTrans GroupRow rankLe :=
  ⟨fun a b c hab hbc => by
    unfold rankLe at hab hbc ⊢
    omega⟩

/-- Sum of `Feasible Qty` over the rows of `df` carrying the group key
`k` (the `"Feasible Qty": "sum"` aggregation of app.py line 148). -/
def sumFeasible (df : List ResolvedLine) (k : String × String × Nat) : Nat :=
  ((df.filter (fun r => gkey r = k)).map (fun r => r.feasibleQty)).sum

/-- Sum of `Demand Qty` over the rows of `df` carrying the group key
`k` (the `"Demand Qty": "sum"` aggregation of app.py line 149). -/
def sumDemand (df : List ResolvedLine) (k : String × String × Nat) : Nat :=
  ((df.filter (fun r => gkey r = k)).map (fun r => r.demandQty)).sum

/-- The aggregated row built for one group key. -/
def mkGroup (df : List ResolvedLine) (order : List String)
    (k : String × String × Nat) : GroupRow :=
  { priority := k.1
    priorityRank := priority_map k.1
    modelName := k.2.1
    modelRank := order.indexOf k.2.1
    cycleTime := k.2.2
    feasibleQty := sumFeasible df k
    demandQty := sumDemand df k }

/-- The `list(dict.fromkeys(df["Model Name"]))` value (app.py line 144): the
distinct models in first-appearance order; `Model_Rank` is an index
into this list. -/
def modelOrder (df : List ResolvedLine) : List String :=
  firstUniq (df.map (fun r => r.modelName))

/-- The distinct group keys in the order pandas `groupby` yields them
(sorted ascending by the key tuple, `sort=True` being the default). -/
def groupKeys (df : List ResolvedLine) : List (String × String × Nat) :=
  List.insertionSort keyLe (firstUniq (df.map gkey))

/-- The `groupby(...).agg(...)` of app.py lines 147-150: one aggregated
row per distinct key. -/
def groupedRows (df : List ResolvedLine) : List GroupRow :=
  (groupKeys df).map (mkGroup df (modelOrder df))

/-- The optimized-mode `process_df` (app.py lines 139-152): grouped rows
sorted by `Priority_Rank` then `Model_Rank`.  `sort_values` leaves
equal-rank rows (same priority and model, different cycle time) in
their incoming order; the stable `insertionSort` realises that. -/
def optimizedRows (df : List ResolvedLine) : List GroupRow :=
  List.insertionSort rankLe (groupedRows df)

/-- The per-row data the scheduling loop (app.py lines 156-192) reads:
`Model Name`, `Priority`, `Feasible Qty`, `Cycle Time (Sec)`. -/
structure ProcRow where
  modelName : String
  priority : String
  feasibleQty : Nat
  cycleTime : Nat
deriving DecidableEq, Repr

def ResolvedLine.toProc (r : ResolvedLine) : ProcRow :=
  { modelName := r.modelName, priority := r.priority
    feasibleQty := r.feasibleQty, cycleTime := r.cycleTime }

def GroupRow.toProc (g : GroupRow) : ProcRow :=
  { modelName := g.modelName, priority := g.priority
    feasibleQty := g.feasibleQty, cycleTime := g.cycleTime }

/-- The Changeover task dict (app.py lines 168-176). -/
def choTask (cs : Nat) (t : Nat) (model : String) : Task :=
  { label := "Setup"
    model := "Changeover to " ++ model
    startSec := t
    finishSec := t + cs
    type := BlockType.Changeover
    quantity := 0
    priority := none }

/-- The Production task dict (app.py lines 182-191). -/
def prodTask (t : Nat) (r : ProcRow) : Task :=
  { label := r.modelName
    model := r.modelName ++ " (" ++ toString r.feasibleQty ++ " units)"
    startSec := t
    finishSec := t + r.feasibleQty * r.cycleTime
    type := BlockType.Production
    quantity := r.feasibleQty
    priority := some r.priority }

/-- The `for i, row in process_df.iterrows()` loop of app.py
lines 156-192.  `prev` is the model of row `i-1` (or `none` at `i = 0`),
`t` is `current_time_seconds`.  Returns the emitted tasks and the final
value of `current_time_seconds`. -/
def scheduleLoop (cs : Nat) : List ProcRow → Option String → Nat → List Task × Nat
  | [], _, t => ([], t)
  | r :: rs, prev, t =>
    let needCh : Bool :=
      match prev with
      | none => false
      | some m => m ≠ r.modelName
    let t1 := if needCh then t + cs else t
    let rest := scheduleLoop cs rs (some r.modelName) (t1 + r.feasibleQty * r.cycleTime)
    ((if needCh then [choTask cs t r.modelName] else []) ++ prodTask t1 r :: rest.1,
      rest.2)

/-- The `process_df` the loop iterates over (app.py lines 139-154):
the grouped-and-sorted rows when `optimize=True`, a copy of the input
rows otherwise. -/
def processRows (df : List ResolvedLine) (optimize : Bool) : List ProcRow :=
  if optimize then (optimizedRows df).map GroupRow.toProc
  else df.map ResolvedLine.toProc

/-- The function `calculate_schedule(df, optimize)` (app.py lines 135-194), with the
changeover penalty `cs` (the global `changeover_penalty_seconds`)
passed explicitly.  Returns the task list and the total elapsed
seconds (the source also returns `process_df`, available here as
`processRows`). -/
def calculate_schedule (df : List ResolvedLine) (optimize : Bool) (cs : Nat) :
    List Task × Nat :=
  scheduleLoop cs (processRows df optimize) none 0

/-- The metric `time_saved_seconds = total_time_a - total_time_b` (app.py line 200),
as an integer since optimization can lose time. -/
def time_saved_seconds (df : List ResolvedLine) (cs : Nat) : Int :=
  ((calculate_schedule df false cs).2 : Int) - ((calculate_schedule df true cs).2 : Int)

/-- Total production seconds of a task list (the
`sum(t["Finish_Sec"] - t["Start_Sec"] for t in tasks if Production)`
of app.py lines 204 and 206). -/
def prodTime (tasks : List Task) : Nat :=
  ((tasks.filter (fun u => u.type = BlockType.Production)).map
    (fun u => u.finishSec - u.startSec)).sum

/-- The metric `utilization = prod_time / total_time * 100 if total_time > 0 else 0`
(app.py lines 205-206), over the rationals. -/
def utilization (tasks : List Task) (total : Nat) : ℚ :=
  if 0 < total then (prodTime tasks : ℚ) / (total : ℚ) * 100 else 0

/-- The metric `total_shortage = clean_df["Shortage"].sum()` (app.py line 202). -/
def total_shortage (df : List ResolvedLine) : Nat :=
  (df.map (fun r => r.shortage)).sum

/-- Modelled from the spec: `meanCycleTimeSeconds`, the arithmetic mean
of `cycleTimeSeconds` across the input lines, 0 for an empty input.
The Metrics Aggregator of spec section 4.3 includes a recovered-units
metric that has no counterpart anywhere in `src/app.py`. -/
def meanCycleTime (ds : List DemandLine) : ℚ :=
  if ds.length = 0 then 0
  else ((ds.map (fun d => d.cycleTime)).sum : ℚ) / (ds.length : ℚ)

/-- Modelled from the spec:
`recoveredUnits = floor(timeSavedSeconds / meanCycleTimeSeconds)`,
0 when the mean is 0 or undefined (no input lines); absent from
`src/app.py`. -/
def recoveredUnits (timeSaved : ℚ) (ds : List DemandLine) : Int :=
  if meanCycleTime ds = 0 then 0 else ⌊timeSaved / meanCycleTime ds⌋

/-! ### Derived notions used to state the invariants -/

/-- Contiguity: `ContigFrom t ts b` says the blocks `ts` tile the interval from `t` to
`b` contiguously: the first starts at `t`, each block starts where the
previous finished, the last finishes at `b` (and `t = b` when there is
no block). -/
def ContigFrom : Nat → List Task → Nat → Prop
  | t, [], b => t = b
  | t, u :: us, b => u.startSec = t ∧ ContigFrom u.finishSec us b

/-- Sum of the durations of a task list. -/
def dursum (ts : List Task) : Nat :=
  (ts.map (fun u => u.finishSec - u.startSec)).sum

/-- One step of the sequence builder exactly as the spec words it
(section 4.2): given the cursor and the model of the preceding line
(`none` for the first line), emit a changeover when a preceding model
exists and differs, then the production block. -/
def specStep (cs : Nat) (acc : List Task × Nat) (pr : Option String × ProcRow) :
    List Task × Nat :=
  match pr.1 with
  | none => (acc.1 ++ [prodTask acc.2 pr.2], acc.2 + pr.2.feasibleQty * pr.2.cycleTime)
  | some m =>
    if m ≠ pr.2.modelName then
      (acc.1 ++ [choTask cs acc.2 pr.2.modelName, prodTask (acc.2 + cs) pr.2],
        acc.2 + cs + pr.2.feasibleQty * pr.2.cycleTime)
    else (acc.1 ++ [prodTask acc.2 pr.2], acc.2 + pr.2.feasibleQty * pr.2.cycleTime)

/-- The model immediately preceding each position of the ordered list:
`none` at position 0, the model of line `i - 1` at position `i`. -/
def prevModels (rows : List ProcRow) : List (Option String) :=
  none :: rows.map (fun r => some r.modelName)

/-- The sequence builder as the spec describes it: an explicit pairwise
walk over the finally-ordered line list with a running cursor starting
at 0. -/
def specBuild (cs : Nat) (rows : List ProcRow) : List Task × Nat :=
  ((prevModels rows).zip rows).foldl (specStep cs) ([], 0)

/-! ### Concrete inputs for the scenario claims -/

/-- Scenario 1 input `[(A,40,45),(B,25,60),(A,30,45),(B,15,60)]`: all
lines share one priority and material is unconstrained (on-hand equal
to demand, so `feasibleQty = requestedQty`). -/
def exRaw6 : List DemandLine :=
  [⟨"A", "Standard", 40, 40, 45⟩, ⟨"B", "Standard", 25, 25, 60⟩,
   ⟨"A", "Standard", 30, 30, 45⟩, ⟨"B", "Standard", 15, 15, 60⟩]

def exDf6 : List ResolvedLine := resolveAll exRaw6

/-- One model listed under both priorities. -/
def exRawDouble : List DemandLine :=
  [⟨"A", "Hot (VP Demo)", 1, 1, 1⟩, ⟨"A", "Standard", 1, 1, 1⟩]

def exDfDouble : List ResolvedLine := resolveAll exRawDouble

/-- A single valid line whose material on hand is zero, so its feasible
quantity is zero. -/
def exRawZero : List DemandLine := [⟨"A", "Standard", 1, 0, 1⟩]

def exDfZero : List ResolvedLine := resolveAll exRawZero

/-- Scenario 2 line: Hot, demand 10, on-hand 5, cycle 45. -/
def exLine2 : DemandLine := ⟨"X", "Hot (VP Demo)", 10, 5, 45⟩

/-! ### Structural lemmas about the scheduling loop -/

theorem scheduleLoop_cons_none (cs : Nat) (r : ProcRow) (rs : List ProcRow) (t : Nat) :
    scheduleLoop cs (r :: rs) none t =
      (prodTask t r ::
        (scheduleLoop cs rs (some r.modelName) (t + r.feasibleQty * r.cycleTime)).1,
        (scheduleLoop cs rs (some r.modelName) (t + r.feasibleQty * r.cycleTime)).2) := by
  simp [scheduleLoop]

theorem scheduleLoop_cons_same (cs : Nat) (r : ProcRow) (rs : List ProcRow) (m : String)
    (t : Nat) (h : m = r.modelName) :
    scheduleLoop cs (r :: rs) (some m) t =
      (prodTask t r ::
        (scheduleLoop cs rs (some r.modelName) (t + r.feasibleQty * r.cycleTime)).1,
        (scheduleLoop cs rs (some r.modelName) (t + r.feasibleQty * r.cycleTime)).2) := by
  simp [scheduleLoop, h]

theorem scheduleLoop_cons_diff (cs : Nat) (r : ProcRow) (rs : List ProcRow) (m : String)
    (t : Nat) (h : ¬ m = r.modelName) :
    scheduleLoop cs (r :: rs) (some m) t =
      (choTask cs t r.modelName :: prodTask (t + cs) r ::
        (scheduleLoop cs rs (some r.modelName) (t + cs + r.feasibleQty * r.cycleTime)).1,
        (scheduleLoop cs rs (some r.modelName) (t + cs + r.feasibleQty * r.cycleTime)).2) := by
  simp [scheduleLoop, h]

theorem scheduleLoop_ne_nil (cs : Nat) (r : ProcRow) (rs : List ProcRow)
    (prev : Option String) (t : Nat) : (scheduleLoop cs (r :: rs) prev t).1 ≠ [] := by
  match prev with
  | none => rw [scheduleLoop_cons_none]; exact List.cons_ne_nil _ _
  | some m =>
    by_cases hm : m = r.modelName
    · rw [scheduleLoop_cons_same cs r rs m t hm]; exact List.cons_ne_nil _ _
    · rw [scheduleLoop_cons_diff cs r rs m t hm]; exact List.cons_ne_nil _ _

theorem scheduleLoop_contig (cs : Nat) :
    ∀ (rows : List ProcRow) (prev : Option String) (t : Nat),
      ContigFrom t (scheduleLoop cs rows prev t).1 (scheduleLoop cs rows prev t).2 := by
  intro rows
  induction rows with
  | nil => intro prev t; exact rfl
  | cons r rs ih =>
    intro prev t
    match prev with
    | none =>
      rw [scheduleLoop_cons_none]
      exact ⟨rfl, ih (some r.modelName) (t + r.feasibleQty * r.cycleTime)⟩
    | some m =>
      by_cases hm : m = r.modelName
      · rw [scheduleLoop_cons_same cs r rs m t hm]
        exact ⟨rfl, ih (some r.modelName) (t + r.feasibleQty * r.cycleTime)⟩
      · rw [scheduleLoop_cons_diff cs r rs m t hm]
        exact ⟨rfl, rfl, ih (some r.modelName) (t + cs + r.feasibleQty * r.cycleTime)⟩

theorem contigFrom_get {ts : List Task} :
    ∀ {t b : Nat}, ContigFrom t ts b → ∀ (i : Nat) (h : i + 1 < ts.length),
      (ts.get ⟨i, Nat.lt_of_succ_lt h⟩).finishSec = (ts.get ⟨i + 1, h⟩).startSec := by
  induction ts with
  | nil => intro t b _ i h; simp at h
  | cons u us ih =>
    intro t b hc i h
    match i with
    | 0 =>
      match us, hc with
      | v :: vs, ⟨_, hv, _⟩ => exact hv.symm
    | Nat.succ j =>
      have h2 : j + 1 < us.length := by
        simpa [Nat.succ_lt_succ_iff] using h
      exact ih hc.2 j h2

theorem contigFrom_last {ts : List Task} :
    ∀ {t b : Nat}, ContigFrom t ts b → ∀ (h : ts ≠ []),
      (ts.getLast h).finishSec = b := by
  induction ts with
  | nil => intro t b _ h; exact absurd rfl h
  | cons u us ih =>
    intro t b hc h
    match us, hc with
    | [], ⟨_, hb⟩ => exact hb
    | v :: vs, hc =>
      rw [List.getLast_cons (List.cons_ne_nil v vs)]
      exact ih hc.2 (List.cons_ne_nil v vs)

theorem contigFrom_total {ts : List Task} :
    ∀ {t b : Nat}, ContigFrom t ts b → (∀ u ∈ ts, u.startSec ≤ u.finishSec) →
      t + dursum ts = b := by
  induction ts with
  | nil => intro t b hc _; simpa [dursum] using hc
  | cons u us ih =>
    intro t b hc hle
    have h1 : u.startSec = t := hc.1
    have h2 := ih hc.2 (fun v hv => hle v (List.mem_cons_of_mem _ hv))
    have h3 : u.startSec ≤ u.finishSec := hle u (List.mem_cons_self _ _)
    simp only [dursum, List.map_cons, List.sum_cons] at h2 ⊢
    omega

theorem scheduleLoop_task_facts (cs : Nat) :
    ∀ (rows : List ProcRow) (prev : Option String) (t : Nat),
      ∀ u ∈ (scheduleLoop cs rows prev t).1,
        (u.type = BlockType.Changeover → u.finishSec = u.startSec + cs ∧ u.quantity = 0) ∧
        (u.type = BlockType.Production →
          ∃ r ∈ rows, u.quantity = r.feasibleQty ∧ u.label = r.modelName ∧
            u.priority = some r.priority ∧
            u.finishSec = u.startSec + r.feasibleQty * r.cycleTime) := by
  intro rows
  induction rows with
  | nil => intro prev t u hu; simp [scheduleLoop] at hu
  | cons r rs ih =>
    intro prev t u hu
    have step :
        ∀ t1, u = prodTask t1 r ∨ u ∈ (scheduleLoop cs rs (some r.modelName)
            (t1 + r.feasibleQty * r.cycleTime)).1 ∨ u = choTask cs t r.modelName →
          (u.type = BlockType.Changeover →
            u.finishSec = u.startSec + cs ∧ u.quantity = 0) ∧
          (u.type = BlockType.Production →
            ∃ s ∈ r :: rs, u.quantity = s.feasibleQty ∧ u.label = s.modelName ∧
              u.priority = some s.priority ∧
              u.finishSec = u.startSec + s.feasibleQty * s.cycleTime) := by
      intro t1 hcase
      rcases hcase with hp | hrest | hch
      · subst hp
        constructor
        · intro hty; exact nomatch hty
        · intro _
          exact ⟨r, List.mem_cons_self _ _, rfl, rfl, rfl, rfl⟩
      · have hfacts := ih (some r.modelName) (t1 + r.feasibleQty * r.cycleTime) u hrest
        refine ⟨hfacts.1, fun hp => ?_⟩
        obtain ⟨s, hs, hrest2⟩ := hfacts.2 hp
        exact ⟨s, List.mem_cons_of_mem _ hs, hrest2⟩
      · subst hch
        exact ⟨fun _ => ⟨rfl, rfl⟩, fun hty => nomatch hty⟩
    match prev with
    | none =>
      rw [scheduleLoop_cons_none] at hu
      rcases List.mem_cons.mp hu with hp | hrest
      · exact step t (Or.inl hp)
      · exact step t (Or.inr (Or.inl hrest))
    | some m =>
      by_cases hm : m = r.modelName
      · rw [scheduleLoop_cons_same cs r rs m t hm] at hu
        rcases List.mem_cons.mp hu with hp | hrest
        · exact step t (Or.inl hp)
        · exact step t (Or.inr (Or.inl hrest))
      · rw [scheduleLoop_cons_diff cs r rs m t hm] at hu
        rcases List.mem_cons.mp hu with hch | hu2
        · exact step (t + cs) (Or.inr (Or.inr hch))
        · rcases List.mem_cons.mp hu2 with hp | hrest
          · exact step (t + cs) (Or.inl hp)
          · exact step (t + cs) (Or.inr (Or.inl hrest))

theorem scheduleLoop_start_le_finish (cs : Nat) (rows : List ProcRow)
    (prev : Option String) (t : Nat) :
    ∀ u ∈ (scheduleLoop cs rows prev t).1, u.startSec ≤ u.finishSec := by
  intro u hu
  have h := scheduleLoop_task_facts cs rows prev t u hu
  cases hty : u.type with
  | Changeover => have := (h.1 hty).1; omega
  | Production =>
    obtain ⟨r, _, _, _, _, hf⟩ := h.2 hty
    omega

theorem scheduleLoop_prod_proj (cs : Nat) :
    ∀ (rows : List ProcRow) (prev : Option String) (t : Nat),
      ((scheduleLoop cs rows prev t).1.filter
        (fun u => u.type = BlockType.Production)).map
          (fun u => (u.label, u.quantity, u.priority)) =
      rows.map (fun r => (r.modelName, r.feasibleQty, some r.priority)) := by
  intro rows
  induction rows with
  | nil => intro prev t; rfl
  | cons r rs ih =>
    intro prev t
    match prev with
    | none =>
      rw [scheduleLoop_cons_none]
      simp [prodTask, ih]
    | some m =>
      by_cases hm : m = r.modelName
      · rw [scheduleLoop_cons_same cs r rs m t hm]
        simp [prodTask, ih]
      · rw [scheduleLoop_cons_diff cs r rs m t hm]
        simp [prodTask, choTask, ih]

theorem scheduleLoop_label_qty (cs : Nat) (mq : String) :
    ∀ (rows : List ProcRow) (prev : Option String) (t : Nat),
      ((scheduleLoop cs rows prev t).1.filter
        (fun u => u.type = BlockType.Production ∧ u.label = mq)).map
          (fun u => u.quantity) =
      (rows.filter (fun r => r.modelName = mq)).map (fun r => r.feasibleQty) := by
  intro rows
  induction rows with
  | nil => intro prev t; rfl
  | cons r rs ih =>
    intro prev t
    match prev with
    | none =>
      rw [scheduleLoop_cons_none]
      by_cases hr : r.modelName = mq <;>
        simpa [prodTask, hr] using ih (some r.modelName) (t + r.feasibleQty * r.cycleTime)
    | some m =>
      by_cases hm : m = r.modelName
      · rw [scheduleLoop_cons_same cs r rs m t hm]
        by_cases hr : r.modelName = mq <;>
          simpa [prodTask, hr] using ih (some r.modelName) (t + r.feasibleQty * r.cycleTime)
      · rw [scheduleLoop_cons_diff cs r rs m t hm]
        by_cases hr : r.modelName = mq <;>
          simpa [prodTask, choTask, hr] using
            ih (some r.modelName) (t + cs + r.feasibleQty * r.cycleTime)

/-! ### Lemmas about `firstUniq` -/

theorem mem_firstUniqAux {α : Type} [DecidableEq α] :
    ∀ (l seen : List α) (x : α), x ∈ firstUniqAux seen l ↔ x ∈ l ∧ x ∉ seen := by
  intro l
  induction l with
  | nil => intro seen x; simp [firstUniqAux]
  | cons a l ih =>
    intro seen x
    by_cases ha : a ∈ seen
    · rw [firstUniqAux, if_pos ha, ih]
      constructor
      · rintro ⟨hx, hn⟩; exact ⟨List.mem_cons_of_mem _ hx, hn⟩
      · rintro ⟨hx, hn⟩
        rcases List.mem_cons.mp hx with rfl | hx
        · exact absurd ha hn
        · exact ⟨hx, hn⟩
    · rw [firstUniqAux, if_neg ha]
      constructor
      · intro hmem
        rcases List.mem_cons.mp hmem with rfl | hx
        · exact ⟨List.mem_cons_self _ _, ha⟩
        · have h2 := (ih (a :: seen) x).mp hx
          exact ⟨List.mem_cons_of_mem _ h2.1,
            fun hs => h2.2 (List.mem_cons_of_mem _ hs)⟩
      · rintro ⟨hx, hn⟩
        rcases List.mem_cons.mp hx with rfl | hx
        · exact List.mem_cons_self _ _
        · by_cases hxa : x = a
          · subst hxa; exact List.mem_cons_self _ _
          · refine List.mem_cons_of_mem _ ((ih (a :: seen) x).mpr ⟨hx, ?_⟩)
            intro hs
            rcases List.mem_cons.mp hs with h | h
            · exact hxa h
            · exact hn h

theorem nodup_firstUniqAux {α : Type} [DecidableEq α] :
    ∀ (l seen : List α), (firstUniqAux seen l).Nodup := by
  intro l
  induction l with
  | nil => intro seen; simp [firstUniqAux]
  | cons a l ih =>
    intro seen
    by_cases ha : a ∈ seen
    · rw [firstUniqAux, if_pos ha]; exact ih seen
    · rw [firstUniqAux, if_neg ha, List.nodup_cons]
      refine ⟨fun hmem => ?_, ih (a :: seen)⟩
      exact ((mem_firstUniqAux l (a :: seen) a).mp hmem).2 (List.mem_cons_self _ _)

theorem mem_firstUniq {α : Type} [DecidableEq α] (l : List α) (x : α) :
    x ∈ firstUniq l ↔ x ∈ l := by
  rw [firstUniq, mem_firstUniqAux]
  simp

theorem nodup_firstUniq {α : Type} [DecidableEq α] (l : List α) :
    (firstUniq l).Nodup :=
  nodup_firstUniqAux l []

theorem firstUniq_cons_ne_nil {α : Type} [DecidableEq α] (a : α) (l : List α) :
    firstUniq (a :: l) ≠ [] := by
  rw [firstUniq, firstUniqAux, if_neg (List.not_mem_nil a)]
  exact List.cons_ne_nil _ _

/-! ### The loop coincides with the spec-worded pairwise walk -/

theorem specStep_fold (cs : Nat) :
    ∀ (rows : List ProcRow) (prev : Option String) (t : Nat) (ts0 : List Task),
      ((prev :: rows.map (fun r => some r.modelName)).zip rows).foldl
          (specStep cs) (ts0, t) =
        (ts0 ++ (scheduleLoop cs rows prev t).1, (scheduleLoop cs rows prev t).2) := by
  intro rows
  induction rows with
  | nil => intro prev t ts0; simp [scheduleLoop]
  | cons r rs ih =>
    intro prev t ts0
    show List.foldl (specStep cs) (specStep cs (ts0, t) (prev, r))
        ((some r.modelName :: rs.map (fun x => some x.modelName)).zip rs) = _
    match prev with
    | none =>
      rw [scheduleLoop_cons_none]
      have hs : specStep cs (ts0, t) (none, r) =
          (ts0 ++ [prodTask t r], t + r.feasibleQty * r.cycleTime) := rfl
      rw [hs, ih]
      simp
    | some m =>
      by_cases hm : m = r.modelName
      · rw [scheduleLoop_cons_same cs r rs m t hm]
        have hs : specStep cs (ts0, t) (some m, r) =
            (ts0 ++ [prodTask t r], t + r.feasibleQty * r.cycleTime) := by
          simp [specStep, hm]
        rw [hs, ih]
        simp
      · rw [scheduleLoop_cons_diff cs r rs m t hm]
        have hs : specStep cs (ts0, t) (some m, r) =
            (ts0 ++ [choTask cs t r.modelName, prodTask (t + cs) r],
              t + cs + r.feasibleQty * r.cycleTime) := by
          simp [specStep, hm]
        rw [hs, ih]
        simp

theorem specBuild_eq (cs : Nat) (rows : List ProcRow) :
    specBuild cs rows = scheduleLoop cs rows none 0 := by
  have h := specStep_fold cs rows none 0 []
  simpa [specBuild, prevModels] using h

/-! ### Lemmas about the optimized grouping -/

theorem calculate_schedule_def (df : List ResolvedLine) (b : Bool) (cs : Nat) :
    calculate_schedule df b cs = scheduleLoop cs (processRows df b) none 0 := rfl

theorem mem_optimizedRows (df : List ResolvedLine) (g : GroupRow)
    (hg : g ∈ optimizedRows df) :
    ∃ r ∈ df, r.priority = g.priority ∧ r.modelName = g.modelName ∧
      r.cycleTime = g.cycleTime ∧
      g.priorityRank = priority_map g.priority ∧
      g.modelRank = (modelOrder df).indexOf g.modelName ∧
      g.feasibleQty = sumFeasible df (g.priority, g.modelName, g.cycleTime) := by
  have hg2 : g ∈ groupedRows df := (List.mem_insertionSort rankLe).mp hg
  rcases List.mem_map.mp hg2 with ⟨k, hk, hmk⟩
  have hk2 : k ∈ firstUniq (df.map gkey) := (List.mem_insertionSort keyLe).mp hk
  have hk3 : k ∈ df.map gkey := (mem_firstUniq _ _).mp hk2
  rcases List.mem_map.mp hk3 with ⟨r, hr, hgk⟩
  refine ⟨r, hr, ?_⟩
  subst hmk
  rw [← hgk]
  exact ⟨rfl, rfl, rfl, rfl, rfl, rfl⟩

theorem optimizedRows_length (df : List ResolvedLine) :
    (optimizedRows df).length = (firstUniq (df.map gkey)).length := by
  unfold optimizedRows groupedRows groupKeys
  rw [(List.perm_insertionSort rankLe _).length_eq, List.length_map,
    (List.perm_insertionSort keyLe _).length_eq]

theorem processRows_ne_nil (df : List ResolvedLine) (b : Bool) (hne : df ≠ []) :
    processRows df b ≠ [] := by
  match df, hne with
  | d :: ds, _ =>
    cases b with
    | false => simp [processRows, ResolvedLine.toProc]
    | true =>
      have hlen : (optimizedRows (d :: ds)).length ≠ 0 := by
        rw [optimizedRows_length]
        intro h0
        exact firstUniq_cons_ne_nil (gkey d) (ds.map gkey)
          (List.length_eq_zero.mp (by simpa using h0))
      intro h0
      apply hlen
      have hmap : (processRows (d :: ds) true).length =
          (optimizedRows (d :: ds)).length := by
        simp [processRows]
      rw [← hmap, h0]
      rfl

theorem processRows_cycle_ge (df : List ResolvedLine) (b : Bool)
    (hcy : ∀ r ∈ df, 1 ≤ r.cycleTime) :
    ∀ q ∈ processRows df b, 1 ≤ q.cycleTime := by
  intro q hq
  cases b with
  | false =>
    rcases List.mem_map.mp (by simpa [processRows] using hq) with ⟨r, hr, rfl⟩
    exact hcy r hr
  | true =>
    rcases List.mem_map.mp (by simpa [processRows] using hq) with ⟨g, hg, rfl⟩
    rcases mem_optimizedRows df g hg with ⟨r, hr, _, _, hcyc, _⟩
    have := hcy r hr
    simp only [GroupRow.toProc]
    omega

/-! ### Claim theorems settled by evaluation -/

/-- C6: on the unconstrained 4-line input `[(A,40,45),(B,25,60),
(A,30,45),(B,15,60)]` with a 900-second changeover, Plain mode yields
4 Production and 3 Changeover blocks totalling 8250 seconds; Optimized
mode groups the lines to `[(A,70,45),(B,40,60)]`, yields exactly one
Changeover block and 6450 seconds total; and the time saved is
8250 − 6450 = 1800 seconds. -/
theorem C6_scenario1 :
    ((calculate_schedule exDf6 false 900).1.filter
      (fun u => u.type = BlockType.Production)).length = 4 ∧
    ((calculate_schedule exDf6 false 900).1.filter
      (fun u => u.type = BlockType.Changeover)).length = 3 ∧
    (calculate_schedule exDf6 false 900).2 = 8250 ∧
    (optimizedRows exDf6).map (fun g => (g.modelName, g.feasibleQty, g.cycleTime)) =
      [("A", 70, 45), ("B", 40, 60)] ∧
    ((calculate_schedule exDf6 true 900).1.filter
      (fun u => u.type = BlockType.Changeover)).length = 1 ∧
    (calculate_schedule exDf6 true 900).2 = 6450 ∧
    time_saved_seconds exDf6 900 = 1800 := by
  decide

/-- C1 counterexample: the model `"A"` appears twice in the input (once
Hot, once Standard), yet the Optimized result contains two Production
blocks for `"A"` — the `groupby` key of app.py line 147 includes the
priority (and cycle time), so the claimed one-block-per-model property
fails whenever one model is listed under two priorities. -/
theorem C1_counterexample :
    exDfDouble.map (fun r => r.modelName) = ["A", "A"] ∧
    ((calculate_schedule exDfDouble true 900).1.filter
      (fun u => u.type = BlockType.Production ∧ u.label = "A")).length = 2 ∧
    ¬ ((calculate_schedule exDfDouble true 900).1.filter
      (fun u => u.type = BlockType.Production ∧ u.label = "A")).length = 1 := by
  decide

/-- C8 counterexample: the input line (demand 1, on-hand 0, cycle 1)
satisfies all the claimed validity bounds, yet its zero-feasible
Production block has `finishSeconds = startSeconds = 0`, refuting
`finishSeconds > startSeconds`. -/
theorem C8_counterexample :
    (∀ d ∈ exRawZero, 1 ≤ d.demandQty ∧ 1 ≤ d.cycleTime) ∧
    ¬ (∀ u ∈ (calculate_schedule exDfZero false 900).1,
        u.startSec < u.finishSec) := by
  decide

/-- C3: the constraint logic sets `feasibleQty = min(requestedQty,
materialOnHand)` and `shortage = requestedQty − feasibleQty ≥ 0` while
leaving every other column unchanged; on the scenario-2 line
(Hot, demand 10, on-hand 5, cycle 45) this gives `feasibleQty = 5`,
`shortage = 5`, and in either mode a single Production block of
quantity 5 lasting 225 seconds. -/
theorem C3_feasibility :
    (∀ d : DemandLine,
      (resolveLine d).feasibleQty = min d.demandQty d.materialOnHand ∧
      ((resolveLine d).shortage : Int) =
        (d.demandQty : Int) - ((resolveLine d).feasibleQty : Int) ∧
      (resolveLine d).modelName = d.modelName ∧
      (resolveLine d).priority = d.priority ∧
      (resolveLine d).demandQty = d.demandQty ∧
      (resolveLine d).materialOnHand = d.materialOnHand ∧
      (resolveLine d).cycleTime = d.cycleTime) ∧
    (resolveLine exLine2).feasibleQty = 5 ∧
    (resolveLine exLine2).shortage = 5 ∧
    ((calculate_schedule (resolveAll [exLine2]) false 900).1.map
      (fun u => (u.label, u.startSec, u.finishSec, u.quantity))) =
      [("X", 0, 225, 5)] ∧
    ((calculate_schedule (resolveAll [exLine2]) true 900).1.map
      (fun u => (u.label, u.startSec, u.finishSec, u.quantity))) =
      [("X", 0, 225, 5)] := by
  refine ⟨fun d => ⟨rfl, ?_, rfl, rfl, rfl, rfl, rfl⟩, by decide, by decide,
    by decide, by decide⟩
  have hmin : min d.demandQty d.materialOnHand ≤ d.demandQty := Nat.min_le_left _ _
  simp only [resolveLine]
  omega

/-- C2: in both modes the emitted block sequence is exactly the spec's
pairwise walk over the final ordered line list — `calculate_schedule`
coincides with `specBuild`, which emits a Changeover before the line at
position `i > 0` iff its model differs from the preceding line's model
and never before the first line; moreover every Changeover block lasts
exactly `cs` seconds, the first emitted block is always a Production
block, and a single-line list yields no Changeover at all. -/
theorem C2_changeover_rule (df : List ResolvedLine) (optimize : Bool) (cs : Nat) :
    calculate_schedule df optimize cs = specBuild cs (processRows df optimize) ∧
    (∀ u ∈ (calculate_schedule df optimize cs).1,
      u.type = BlockType.Changeover → u.finishSec = u.startSec + cs) ∧
    (∀ u, (calculate_schedule df optimize cs).1.head? = some u →
      u.type = BlockType.Production) ∧
    (∀ r : ProcRow, processRows df optimize = [r] →
      (calculate_schedule df optimize cs).1.filter
        (fun u => u.type = BlockType.Changeover) = []) := by
  refine ⟨(specBuild_eq cs (processRows df optimize)).symm, ?_, ?_, ?_⟩
  · intro u hu hty
    exact ((scheduleLoop_task_facts cs (processRows df optimize) none 0 u hu).1 hty).1
  · intro u hu
    rw [calculate_schedule_def] at hu
    rcases hrows : processRows df optimize with _ | ⟨r, rs⟩
    · rw [hrows] at hu
      simp [scheduleLoop] at hu
    · rw [hrows, scheduleLoop_cons_none] at hu
      simp only [List.head?_cons, Option.some_inj] at hu
      rw [← hu]
      rfl
  · intro r hr
    rw [calculate_schedule_def, hr, scheduleLoop_cons_none]
    simp [scheduleLoop, prodTask]

/-- Witness for C2: on the scenario-1 input in Plain mode, the
changeover emitted at 1800 s lasts exactly 900 s. -/
theorem C2_witness :
    choTask 900 1800 "B" ∈ (calculate_schedule exDf6 false 900).1 ∧
    (choTask 900 1800 "B").finishSec = (choTask 900 1800 "B").startSec + 900 :=
  ⟨by decide, (C2_changeover_rule exDf6 false 900).2.1
    (choTask 900 1800 "B") (by decide) (by decide)⟩

/-- C5: for every non-empty input and both modes the produced block
list is non-empty, its first block starts at 0, every adjacent pair is
contiguous (`block[i].finishSeconds = block[i+1].startSeconds`), and
the returned total duration equals the last block's finish. -/
theorem C5_contiguity (df : List ResolvedLine) (optimize : Bool) (cs : Nat)
    (hne : df ≠ []) :
    (calculate_schedule df optimize cs).1 ≠ [] ∧
    (∀ u, (calculate_schedule df optimize cs).1.head? = some u →
      u.startSec = 0) ∧
    (∀ (i : Nat) (h : i + 1 < (calculate_schedule df optimize cs).1.length),
      ((calculate_schedule df optimize cs).1.get ⟨i, Nat.lt_of_succ_lt h⟩).finishSec =
        ((calculate_schedule df optimize cs).1.get ⟨i + 1, h⟩).startSec) ∧
    (∀ v, (calculate_schedule df optimize cs).1.getLast? = some v →
      (calculate_schedule df optimize cs).2 = v.finishSec) := by
  have hc := scheduleLoop_contig cs (processRows df optimize) none 0
  have hnil : (calculate_schedule df optimize cs).1 ≠ [] := by
    rcases hrows : processRows df optimize with _ | ⟨r, rs⟩
    · exact absurd hrows (processRows_ne_nil df optimize hne)
    · rw [calculate_schedule_def, hrows]
      exact scheduleLoop_ne_nil cs r rs none 0
  refine ⟨hnil, ?_, ?_, ?_⟩
  · intro u hu
    rcases hts : (scheduleLoop cs (processRows df optimize) none 0).1 with _ | ⟨w, ws⟩
    · rw [calculate_schedule_def, hts] at hu
      simp at hu
    · rw [calculate_schedule_def, hts] at hu
      simp only [List.head?_cons, Option.some_inj] at hu
      rw [hts] at hc
      rw [← hu]
      exact hc.1
  · intro i h
    exact contigFrom_get hc i h
  · intro v hv
    rw [calculate_schedule_def] at hv ⊢
    have h2 : (scheduleLoop cs (processRows df optimize) none 0).1 ≠ [] := hnil
    rw [List.getLast?_eq_getLast _ h2, Option.some_inj] at hv
    rw [← hv]
    exact (contigFrom_last hc h2).symm

/-- Witness for C5 at the scenario-1 input in Plain mode. -/
theorem C5_witness :
    exDf6 ≠ [] ∧ (calculate_schedule exDf6 false 900).1 ≠ [] :=
  ⟨by decide, (C5_contiguity exDf6 false 900 (by decide)).1⟩

theorem prodTime_le_total (df : List ResolvedLine) (optimize : Bool) (cs : Nat) :
    prodTime (calculate_schedule df optimize cs).1 ≤
      (calculate_schedule df optimize cs).2 := by
  rw [calculate_schedule_def]
  have hc := scheduleLoop_contig cs (processRows df optimize) none 0
  have hle := scheduleLoop_start_le_finish cs (processRows df optimize) none 0
  have htot := contigFrom_total hc hle
  have hsub : prodTime (scheduleLoop cs (processRows df optimize) none 0).1 ≤
      dursum (scheduleLoop cs (processRows df optimize) none 0).1 := by
    unfold prodTime dursum
    exact List.Sublist.sum_le_sum
      (List.Sublist.map _ (List.filter_sublist _)) (fun a _ => Nat.zero_le a)
  omega

/-- C7: the utilization of either mode's result equals the production
time divided by the total duration times 100 when the total is
positive, is 0 when the total is 0, and always lies in [0, 100]. -/
theorem C7_utilization (df : List ResolvedLine) (optimize : Bool) (cs : Nat) :
    ((calculate_schedule df optimize cs).2 = 0 →
      utilization (calculate_schedule df optimize cs).1
        (calculate_schedule df optimize cs).2 = 0) ∧
    (0 < (calculate_schedule df optimize cs).2 →
      utilization (calculate_schedule df optimize cs).1
          (calculate_schedule df optimize cs).2 =
        (prodTime (calculate_schedule df optimize cs).1 : ℚ) /
          ((calculate_schedule df optimize cs).2 : ℚ) * 100) ∧
    0 ≤ utilization (calculate_schedule df optimize cs).1
        (calculate_schedule df optimize cs).2 ∧
    utilization (calculate_schedule df optimize cs).1
        (calculate_schedule df optimize cs).2 ≤ 100 := by
  have hle : prodTime (calculate_schedule df optimize cs).1 ≤
      (calculate_schedule df optimize cs).2 := prodTime_le_total df optimize cs
  by_cases h0 : 0 < (calculate_schedule df optimize cs).2
  · have hformula : utilization (calculate_schedule df optimize cs).1
        (calculate_schedule df optimize cs).2 =
        (prodTime (calculate_schedule df optimize cs).1 : ℚ) /
          ((calculate_schedule df optimize cs).2 : ℚ) * 100 := by
      rw [utilization, if_pos h0]
    refine ⟨fun hz => absurd hz (by omega), fun _ => hformula, ?_, ?_⟩
    · rw [hformula]
      positivity
    · rw [hformula]
      have htq : (0 : ℚ) < ((calculate_schedule df optimize cs).2 : ℚ) := by
        exact_mod_cast h0
      have hdiv : (prodTime (calculate_schedule df optimize cs).1 : ℚ) /
          ((calculate_schedule df optimize cs).2 : ℚ) ≤ 1 :=
        (div_le_one htq).mpr (by exact_mod_cast hle)
      nlinarith
  · have hformula : utilization (calculate_schedule df optimize cs).1
        (calculate_schedule df optimize cs).2 = 0 := by
      rw [utilization, if_neg h0]
    exact ⟨fun _ => hformula, fun hpos => absurd hpos h0,
      by rw [hformula], by rw [hformula]; norm_num⟩

/-- Witness for C7 at the scenario-1 input in Plain mode. -/
theorem C7_witness :
    0 < (calculate_schedule exDf6 false 900).2 ∧
    utilization (calculate_schedule exDf6 false 900).1
        (calculate_schedule exDf6 false 900).2 =
      (prodTime (calculate_schedule exDf6 false 900).1 : ℚ) /
        ((calculate_schedule exDf6 false 900).2 : ℚ) * 100 :=
  ⟨by decide, (C7_utilization exDf6 false 900).2.1 (by decide)⟩

/-- C8 as amended: for every input whose lines have positive cycle
times and both modes, every block satisfies `startSeconds ≤
finishSeconds` (both are naturals, hence ≥ 0); a Changeover block
always lasts exactly `cs` seconds, so it is strictly positive whenever
`cs > 0`; and a Production block is strictly positive whenever its
quantity is at least 1 — a block of feasible quantity 0 has
`finish = start`, which is the only failure of the original strict
inequality. -/
theorem C8_amended (df : List ResolvedLine) (optimize : Bool) (cs : Nat)
    (hcy : ∀ r ∈ df, 1 ≤ r.cycleTime) :
    ∀ u ∈ (calculate_schedule df optimize cs).1,
      u.startSec ≤ u.finishSec ∧
      (u.type = BlockType.Changeover → u.finishSec = u.startSec + cs) ∧
      (0 < cs → u.type = BlockType.Changeover → u.startSec < u.finishSec) ∧
      (u.type = BlockType.Production → 1 ≤ u.quantity →
        u.startSec < u.finishSec) := by
  intro u hu
  have hfacts := scheduleLoop_task_facts cs (processRows df optimize) none 0 u hu
  have hle := scheduleLoop_start_le_finish cs (processRows df optimize) none 0 u hu
  refine ⟨hle, fun hty => (hfacts.1 hty).1, fun hcs hty => ?_, fun hty hq => ?_⟩
  · have := (hfacts.1 hty).1
    omega
  · obtain ⟨r, hr, hqty, _, _, hf⟩ := hfacts.2 hty
    have hcyc : 1 ≤ r.cycleTime := processRows_cycle_ge df optimize hcy r hr
    have hq2 : 1 ≤ r.feasibleQty := by omega
    have hmul : 0 < r.feasibleQty * r.cycleTime := Nat.mul_pos hq2 hcyc
    omega

/-- Witness for C8 (amended) at the scenario-1 input in Plain mode:
the first production block is strictly positive. -/
theorem C8_witness :
    (∀ r ∈ exDf6, 1 ≤ r.cycleTime) ∧
    prodTask 0 (ResolvedLine.toProc (resolveLine ⟨"A", "Standard", 40, 40, 45⟩)) ∈
      (calculate_schedule exDf6 false 900).1 ∧
    (prodTask 0 (ResolvedLine.toProc (resolveLine ⟨"A", "Standard", 40, 40, 45⟩))).startSec ≤
      (prodTask 0 (ResolvedLine.toProc (resolveLine ⟨"A", "Standard", 40, 40, 45⟩))).finishSec :=
  ⟨by decide, by decide,
    (C8_amended exDf6 false 900 (by decide)
      (prodTask 0 (ResolvedLine.toProc (resolveLine ⟨"A", "Standard", 40, 40, 45⟩)))
      (by decide)).1⟩

/-! ### Sums are preserved by the grouping -/

theorem sum_map_filter_split {α : Type} (p : α → Bool) (f : α → Nat) (l : List α) :
    ((l.filter p).map f).sum + ((l.filter (fun a => !(p a))).map f).sum =
      (l.map f).sum := by
  induction l with
  | nil => rfl
  | cons a l ih =>
    by_cases hp : p a = true
    · simp only [List.filter_cons, hp, Bool.not_true, if_true, Bool.false_eq_true,
        if_false, List.map_cons, List.sum_cons]
      omega
    · have hp2 : p a = false := by simpa using hp
      simp only [List.filter_cons, hp2, Bool.not_false, if_true, Bool.false_eq_true,
        if_false, List.map_cons, List.sum_cons]
      omega

theorem sum_over_keys {α κ : Type} [DecidableEq κ] (key : α → κ) (f : α → Nat) :
    ∀ (ks : List κ) (l : List α), ks.Nodup → (∀ a ∈ l, key a ∈ ks) →
      (ks.map (fun k => ((l.filter (fun a => key a = k)).map f).sum)).sum =
        (l.map f).sum := by
  intro ks
  induction ks with
  | nil =>
    intro l _ hall
    match l with
    | [] => rfl
    | a :: l2 => exact absurd (hall a (List.mem_cons_self _ _)) (List.not_mem_nil _)
  | cons k ks ih =>
    intro l hnd hall
    have hnd2 : ks.Nodup := (List.nodup_cons.mp hnd).2
    have hkn : k ∉ ks := (List.nodup_cons.mp hnd).1
    rw [List.map_cons, List.sum_cons]
    have hstep : ∀ k2 ∈ ks,
        l.filter (fun a => key a = k2) =
          (l.filter (fun a => !(decide (key a = k)))).filter
            (fun a => key a = k2) := by
      intro k2 hk2
      rw [List.filter_filter]
      apply List.filter_congr
      intro a _
      by_cases h : key a = k2
      · have hne : ¬ key a = k := by
          intro hh
          have hkk : k = k2 := by rw [← hh, h]
          exact hkn (by rw [hkk]; exact hk2)
        simp [h, hne]
        exact fun hh => hne (by rw [h, hh])
      · simp [h]
    have hmap : ks.map (fun k2 => ((l.filter (fun a => key a = k2)).map f).sum) =
        ks.map (fun k2 =>
          (((l.filter (fun a => !(decide (key a = k)))).filter
            (fun a => key a = k2)).map f).sum) := by
      apply List.map_congr_left
      intro k2 hk2
      rw [hstep k2 hk2]
    rw [hmap, ih (l.filter (fun a => !(decide (key a = k)))) hnd2 ?_]
    · exact sum_map_filter_split (fun a => decide (key a = k)) f l
    · intro a ha
      have h1 := List.mem_filter.mp ha
      have h2 : ¬ key a = k := by simpa using h1.2
      rcases List.mem_cons.mp (hall a h1.1) with h | h
      · exact absurd h h2
      · exact h

theorem optimized_feas_sum (df : List ResolvedLine) :
    ((optimizedRows df).map (fun g => g.feasibleQty)).sum =
      (df.map (fun r => r.feasibleQty)).sum := by
  have h1 : ((optimizedRows df).map (fun g => g.feasibleQty)).sum =
      ((groupedRows df).map (fun g => g.feasibleQty)).sum :=
    ((List.perm_insertionSort rankLe (groupedRows df)).map _).sum_eq
  have h2 : ((groupedRows df).map (fun g => g.feasibleQty)).sum =
      ((groupKeys df).map (fun k => sumFeasible df k)).sum := by
    unfold groupedRows
    rw [List.map_map]
    rfl
  have h3 : ((groupKeys df).map (fun k => sumFeasible df k)).sum =
      ((firstUniq (df.map gkey)).map (fun k => sumFeasible df k)).sum :=
    ((List.perm_insertionSort keyLe (firstUniq (df.map gkey))).map _).sum_eq
  have h4 : ((firstUniq (df.map gkey)).map (fun k => sumFeasible df k)).sum =
      (df.map (fun r => r.feasibleQty)).sum := by
    apply sum_over_keys gkey (fun r => r.feasibleQty) (firstUniq (df.map gkey)) df
      (nodup_firstUniq _)
    intro r hr
    exact (mem_firstUniq _ _).mpr (List.mem_map.mpr ⟨r, hr, rfl⟩)
  rw [h1, h2, h3, h4]

/-- C10: in both modes the total quantity over all Production blocks
equals the sum of the lines' feasible quantities — the Optimized
grouping redistributes but never changes the total unit count, so both
schedules build exactly the same number of units. -/
theorem C10_quantity_conservation (df : List ResolvedLine) (cs : Nat) :
    (((calculate_schedule df false cs).1.filter
      (fun u => u.type = BlockType.Production)).map (fun u => u.quantity)).sum =
      (df.map (fun r => r.feasibleQty)).sum ∧
    (((calculate_schedule df true cs).1.filter
      (fun u => u.type = BlockType.Production)).map (fun u => u.quantity)).sum =
      (df.map (fun r => r.feasibleQty)).sum := by
  have hq : ∀ (b : Bool),
      (((calculate_schedule df b cs).1.filter
        (fun u => u.type = BlockType.Production)).map (fun u => u.quantity)) =
      (processRows df b).map (fun r => r.feasibleQty) := by
    intro b
    have h := scheduleLoop_prod_proj cs (processRows df b) none 0
    have h2 := congrArg
      (List.map (fun x : String × Nat × Option String => x.2.1)) h
    rw [calculate_schedule_def]
    simpa [List.map_map, Function.comp] using h2
  constructor
  · rw [hq false]
    rw [show processRows df false = df.map ResolvedLine.toProc from rfl, List.map_map]
    congr 1
  · rw [hq true]
    have : (processRows df true).map (fun r => r.feasibleQty) =
        (optimizedRows df).map (fun g => g.feasibleQty) := by
      simp [processRows, List.map_map, Function.comp, GroupRow.toProc]
    rw [this, optimized_feas_sum]

/-- C4: the Optimized ordering sorts the grouped rows by priority rank
(Hot (VP Demo) = 0, Standard = 1) and then by the index of the model's
first appearance in the input; each row's ranks are exactly those
functions of its priority and model; ties within one priority between
distinct models are broken strictly by first appearance; and in the
emitted Production blocks no Standard-priority block ever precedes a
Hot-priority one. -/
theorem C4_priority_order (df : List ResolvedLine) (cs : Nat) :
    List.Pairwise rankLe (optimizedRows df) ∧
    (∀ g ∈ optimizedRows df,
      g.priorityRank = priority_map g.priority ∧
      g.modelRank = (modelOrder df).indexOf g.modelName) ∧
    List.Pairwise (fun a b : GroupRow =>
      a.priorityRank = b.priorityRank → a.modelName ≠ b.modelName →
        a.modelRank < b.modelRank) (optimizedRows df) ∧
    List.Pairwise (fun u v : Task =>
      ¬ (u.priority = some "Standard" ∧ v.priority = some "Hot (VP Demo)"))
      ((calculate_schedule df true cs).1.filter
        (fun u => u.type = BlockType.Production)) := by
  have hsorted : List.Pairwise rankLe (optimizedRows df) :=
    List.sorted_insertionSort rankLe (groupedRows df)
  have hfields : ∀ g ∈ optimizedRows df,
      g.priorityRank = priority_map g.priority ∧
      g.modelRank = (modelOrder df).indexOf g.modelName := by
    intro g hg
    rcases mem_optimizedRows df g hg with ⟨r, hr, _, _, _, h4, h5, _⟩
    exact ⟨h4, h5⟩
  have hnames : ∀ g ∈ optimizedRows df, g.modelName ∈ modelOrder df := by
    intro g hg
    rcases mem_optimizedRows df g hg with ⟨r, hr, _, h2, _⟩
    rw [← h2]
    exact (mem_firstUniq _ _).mpr (List.mem_map.mpr ⟨r, hr, rfl⟩)
  refine ⟨hsorted, hfields, ?_, ?_⟩
  · refine List.Pairwise.imp_of_mem ?_ hsorted
    intro a b ha hb hab hpr hne
    obtain ⟨hpa, hma⟩ := hfields a ha
    obtain ⟨hpb, hmb⟩ := hfields b hb
    have hinj : a.modelRank ≠ b.modelRank := by
      intro he
      apply hne
      exact (List.indexOf_inj (hnames a ha) (hnames b hb)).mp
        (by rw [← hma, ← hmb]; exact he)
    unfold rankLe at hab
    omega
  · have hQ : List.Pairwise (fun a b : GroupRow =>
        ¬ (a.priority = "Standard" ∧ b.priority = "Hot (VP Demo)"))
        (optimizedRows df) := by
      refine List.Pairwise.imp_of_mem ?_ hsorted
      intro a b ha hb hab hcon
      obtain ⟨hpa, _⟩ := hfields a ha
      obtain ⟨hpb, _⟩ := hfields b hb
      rw [hcon.1] at hpa
      rw [hcon.2] at hpb
      have h1 : priority_map "Standard" = 1 := by decide
      have h2 : priority_map "Hot (VP Demo)" = 0 := by decide
      rw [h1] at hpa
      rw [h2] at hpb
      unfold rankLe at hab
      omega
    have hrows : List.Pairwise (fun r s : ProcRow =>
        ¬ (r.priority = "Standard" ∧ s.priority = "Hot (VP Demo)"))
        (processRows df true) := by
      rw [show processRows df true = (optimizedRows df).map GroupRow.toProc from rfl]
      exact (List.pairwise_map).mpr (hQ.imp (fun h => h))
    have hproj := scheduleLoop_prod_proj cs (processRows df true) none 0
    have htri : List.Pairwise (fun x y : String × Nat × Option String =>
        ¬ (x.2.2 = some "Standard" ∧ y.2.2 = some "Hot (VP Demo)"))
        (((calculate_schedule df true cs).1.filter
          (fun u => u.type = BlockType.Production)).map
            (fun u => (u.label, u.quantity, u.priority))) := by
      rw [calculate_schedule_def, hproj]
      refine (List.pairwise_map).mpr (hrows.imp ?_)
      intro r s h hcon
      exact h ⟨Option.some_inj.mp hcon.1, Option.some_inj.mp hcon.2⟩
    exact ((List.pairwise_map).mp htri).imp (fun h => h)

/-- Witness for C4: the grouped rows of the double-priority input are
sorted by the two ranks. -/
theorem C4_witness : List.Pairwise rankLe (optimizedRows exDfDouble) :=
  (C4_priority_order exDfDouble 900).1

theorem length_le_sum_cycle :
    ∀ (ds : List DemandLine), (∀ d ∈ ds, 1 ≤ d.cycleTime) →
      ds.length ≤ (ds.map (fun d => d.cycleTime)).sum := by
  intro ds
  induction ds with
  | nil => intro _; simp
  | cons d ds ih =>
    intro hcy
    simp only [List.map_cons, List.sum_cons, List.length_cons]
    have h1 := hcy d (List.mem_cons_self _ _)
    have h2 := ih (fun x hx => hcy x (List.mem_cons_of_mem _ hx))
    omega

/-- C9 (spec-modelled: the recovered-units metric exists only in the
spec, with no counterpart in src/app.py): `recoveredUnits` is the floor
of `timeSavedSeconds` divided by the mean cycle time, and 0 when the
mean is 0 or undefined (no input lines); for any non-empty input with
positive cycle times the mean is nonzero and the floor formula
applies. -/
theorem C9_recovered_units (s : ℚ) (ds : List DemandLine) :
    (ds = [] → recoveredUnits s ds = 0) ∧
    (meanCycleTime ds = 0 → recoveredUnits s ds = 0) ∧
    (meanCycleTime ds ≠ 0 → recoveredUnits s ds = ⌊s / meanCycleTime ds⌋) ∧
    (ds ≠ [] → (∀ d ∈ ds, 1 ≤ d.cycleTime) →
      recoveredUnits s ds = ⌊s / meanCycleTime ds⌋) := by
  refine ⟨?_, ?_, ?_, ?_⟩
  · intro h
    subst h
    simp [recoveredUnits, meanCycleTime]
  · intro h
    rw [recoveredUnits, if_pos h]
  · intro h
    rw [recoveredUnits, if_neg h]
  · intro hne hcy
    have hlen : 0 < ds.length := List.length_pos.mpr hne
    have hsum : ds.length ≤ (ds.map (fun d => d.cycleTime)).sum :=
      length_le_sum_cycle ds hcy
    have hmean : meanCycleTime ds ≠ 0 := by
      rw [meanCycleTime, if_neg (by omega)]
      have h0 : 0 < (ds.map (fun d => d.cycleTime)).sum := by omega
      have hq1 : (0 : ℚ) < (ds.map (fun d => (d.cycleTime : ℚ))).sum := by
        have hcast := (Nat.cast_pos (α := ℚ)).mpr h0
        rw [Nat.cast_list_sum, List.map_map] at hcast
        simpa [Function.comp] using hcast
      have hq2 : (0 : ℚ) < ((ds.length : Nat) : ℚ) := by exact_mod_cast hlen
      exact ne_of_gt (div_pos hq1 hq2)
    rw [recoveredUnits, if_neg hmean]

/-- Witness for C9 on the scenario-1 demand lines with 1800 seconds
saved. -/
theorem C9_witness :
    exRaw6 ≠ [] ∧
    recoveredUnits 1800 exRaw6 = ⌊(1800 : ℚ) / meanCycleTime exRaw6⌋ :=
  ⟨by decide, (C9_recovered_units 1800 exRaw6).2.2.2 (by decide) (by decide)⟩

theorem countP_eq_one_of_nodup_mem {α : Type} [DecidableEq α] {l : List α} {x : α}
    (hnd : l.Nodup) (hx : x ∈ l) :
    l.countP (fun a => decide (a = x)) = 1 := by
  induction l with
  | nil => cases hx
  | cons a l ih =>
    rw [List.countP_cons]
    rcases List.mem_cons.mp hx with rfl | hx2
    · have ha : x ∉ l := (List.nodup_cons.mp hnd).1
      have h0 : l.countP (fun b => decide (b = x)) = 0 := by
        rw [List.countP_eq_length_filter]
        have hnil : l.filter (fun b => decide (b = x)) = [] := by
          rw [List.filter_eq_nil_iff]
          intro b hb
          simp only [decide_eq_true_eq]
          intro he
          exact ha (he ▸ hb)
        rw [hnil]
        rfl
      simp [h0]
    · have hne : ¬ a = x := by
        intro he
        exact (List.nodup_cons.mp hnd).1 (he ▸ hx2)
      rw [ih (List.nodup_cons.mp hnd).2 hx2]
      simp [hne]

/-- C1 as amended: the optimized grouping key is the triple (priority,
model, cycle time), so a single Production block per model is
guaranteed exactly when all of the model's occurrences carry one
priority and one cycle time; in that case the result has exactly one
Production block for that model, its quantity is the sum of the
model's feasible quantities over all its occurrences, and the group
retains the common — hence the first occurrence's — cycle time.  (The
original claim, quantified over every repeated model, fails when one
model appears under two priorities; see the counterexample.) -/
theorem C1_amended (df : List ResolvedLine) (cs : Nat) (m p : String) (c : Nat)
    (hm : ∃ r ∈ df, r.modelName = m)
    (huni : ∀ r ∈ df, r.modelName = m → r.priority = p ∧ r.cycleTime = c) :
    (((calculate_schedule df true cs).1.filter
        (fun u => u.type = BlockType.Production ∧ u.label = m)).map
      (fun u => u.quantity)) =
      [((df.filter (fun r => r.modelName = m)).map (fun r => r.feasibleQty)).sum] ∧
    ((optimizedRows df).filter (fun g => g.modelName = m)).map
      (fun g => g.cycleTime) = [c] := by
  have hkeyeq : ∀ k ∈ df.map gkey, k.2.1 = m → k = (p, m, c) := by
    intro k hk hkm
    rcases List.mem_map.mp hk with ⟨r, hr, rfl⟩
    have hkm2 : r.modelName = m := hkm
    obtain ⟨hp2, hc2⟩ := huni r hr hkm2
    unfold gkey
    rw [hp2, hc2, hkm2]
  have hpmc_mem : (p, m, c) ∈ df.map gkey := by
    obtain ⟨r0, hr0, hm0⟩ := hm
    obtain ⟨hp0, hc0⟩ := huni r0 hr0 hm0
    refine List.mem_map.mpr ⟨r0, hr0, ?_⟩
    unfold gkey
    rw [hp0, hc0, hm0]
  have hfu_nodup := nodup_firstUniq (df.map gkey)
  have hfu_mem : (p, m, c) ∈ firstUniq (df.map gkey) :=
    (mem_firstUniq _ _).mpr hpmc_mem
  have hcount_fu : (firstUniq (df.map gkey)).countP
      (fun k => decide (k.2.1 = m)) = 1 := by
    have hcongr : (firstUniq (df.map gkey)).countP (fun k => decide (k.2.1 = m)) =
        (firstUniq (df.map gkey)).countP (fun k => decide (k = (p, m, c))) := by
      apply List.countP_congr
      intro k hk
      have hk2 : k ∈ df.map gkey := (mem_firstUniq _ _).mp hk
      constructor
      · intro h
        have hke := hkeyeq k hk2 (by simpa using h)
        simpa using hke
      · intro h
        have hke : k = (p, m, c) := by simpa using h
        subst hke
        simp
    rw [hcongr]
    exact countP_eq_one_of_nodup_mem hfu_nodup hfu_mem
  have hcount_ks : (groupKeys df).countP (fun k => decide (k.2.1 = m)) = 1 := by
    unfold groupKeys
    exact (List.Perm.countP_eq _
      (List.perm_insertionSort keyLe (firstUniq (df.map gkey)))).trans hcount_fu
  have hfil_ks : (groupKeys df).filter (fun k => decide (k.2.1 = m)) = [(p, m, c)] := by
    have hlen : ((groupKeys df).filter (fun k => decide (k.2.1 = m))).length = 1 := by
      rw [← List.countP_eq_length_filter]
      exact hcount_ks
    obtain ⟨x, hx⟩ := List.length_eq_one.mp hlen
    have hxmem : x ∈ (groupKeys df).filter (fun k => decide (k.2.1 = m)) := by
      rw [hx]
      exact List.mem_cons_self _ _
    have hx1 := List.mem_filter.mp hxmem
    have hx2 : x ∈ df.map gkey :=
      (mem_firstUniq _ _).mp ((List.mem_insertionSort keyLe).mp hx1.1)
    have hxeq : x = (p, m, c) := hkeyeq x hx2 (by simpa using hx1.2)
    rw [hx, hxeq]
  have hfil_grouped : (groupedRows df).filter (fun g => decide (g.modelName = m)) =
      [mkGroup df (modelOrder df) (p, m, c)] := by
    unfold groupedRows
    rw [List.filter_map]
    have hc2 : ((fun g : GroupRow => decide (g.modelName = m)) ∘
        mkGroup df (modelOrder df)) =
        (fun k : String × String × Nat => decide (k.2.1 = m)) := rfl
    rw [hc2, hfil_ks]
    rfl
  have hfil_opt : (optimizedRows df).filter (fun g => decide (g.modelName = m)) =
      [mkGroup df (modelOrder df) (p, m, c)] := by
    have hperm := (List.perm_insertionSort rankLe (groupedRows df)).filter
      (fun g : GroupRow => decide (g.modelName = m))
    rw [hfil_grouped] at hperm
    exact List.perm_singleton.mp hperm
  have hsf : sumFeasible df (p, m, c) =
      ((df.filter (fun r => r.modelName = m)).map (fun r => r.feasibleQty)).sum := by
    unfold sumFeasible
    congr 1
    apply congrArg
    apply List.filter_congr
    intro r hr
    by_cases h : r.modelName = m
    · obtain ⟨hp2, hc2⟩ := huni r hr h
      have hgk : gkey r = (p, m, c) := by
        unfold gkey
        rw [hp2, hc2, h]
      simp [hgk, h]
    · have hgk : ¬ gkey r = (p, m, c) := by
        intro he
        apply h
        show (gkey r).2.1 = m
        rw [he]
      simp [hgk, h]
  constructor
  · have hrows : (processRows df true).filter (fun r => decide (r.modelName = m)) =
        [GroupRow.toProc (mkGroup df (modelOrder df) (p, m, c))] := by
      rw [show processRows df true = (optimizedRows df).map GroupRow.toProc from rfl,
        List.filter_map]
      have hc3 : ((fun r : ProcRow => decide (r.modelName = m)) ∘ GroupRow.toProc) =
          (fun g : GroupRow => decide (g.modelName = m)) := rfl
      rw [hc3, hfil_opt]
      rfl
    rw [calculate_schedule_def, scheduleLoop_label_qty cs m (processRows df true) none 0,
      hrows]
    show [(mkGroup df (modelOrder df) (p, m, c)).feasibleQty] = _
    show [sumFeasible df (p, m, c)] = _
    rw [hsf]
  · rw [hfil_opt]
    rfl

/-- Witness for C1 (amended) at the scenario-1 input: model `"A"`
appears twice, uniformly Standard with cycle 45, and the Optimized
result has exactly one Production block for it carrying the summed
quantity. -/
theorem C1_witness :
    exDf6.countP (fun r => r.modelName = "A") = 2 ∧
    (((calculate_schedule exDf6 true 900).1.filter
        (fun u => u.type = BlockType.Production ∧ u.label = "A")).map
      (fun u => u.quantity)) =
      [((exDf6.filter (fun r => r.modelName = "A")).map
        (fun r => r.feasibleQty)).sum] :=
  ⟨by decide,
    (C1_amended exDf6 900 "A" "Standard" 45 (by decide) (by decide)).1⟩

end MacNpi
